import Mathlib

/-!
Verification of the hand-crossing counter core (`hand_crossing_counter.py`).

The detector state is embedded as a structure mirroring the fields of
`HandCrossingCounter` that the event-detection and rate-estimation logic
reads and writes.  Python floats are modelled as rationals, absent hand
positions as `Option ℚ`, and the per-frame processing of the main loop
(store previous positions, record history, detect) as the `observe`
function.  Traces of observe calls and rate queries are lists of `Op`.
-/

namespace SixtySevenCounter

/-- The mutable detector fields of `HandCrossingCounter` relevant to event
detection, history smoothing and rate estimation (floats as `ℚ`). -/
structure CounterState where
  crossing_count : Nat
  left_hand_y : Option ℚ
  right_hand_y : Option ℚ
  previous_left_y : Option ℚ
  previous_right_y : Option ℚ
  last_crossing_time : ℚ
  crossing_cooldown : ℚ
  start_time : ℚ
  count_timestamps : List ℚ
  min_crossing_distance : ℚ
  hand_history_left : List ℚ
  hand_history_right : List ℚ
  history_length : Nat
  deriving Repr, DecidableEq

/-- `HandCrossingCounter.__init__`: the initial values of the tracked fields
(`time.time()` at construction is the parameter `now`). -/
def initState (now : ℚ) : CounterState where
  crossing_count := 0
  left_hand_y := none
  right_hand_y := none
  previous_left_y := none
  previous_right_y := none
  last_crossing_time := 0
  crossing_cooldown := 1/20
  start_time := now
  count_timestamps := []
  min_crossing_distance := 1/100
  hand_history_left := []
  hand_history_right := []
  history_length := 2

/-- One buffer update of `update_hand_history`: append a non-absent reading,
then `pop(0)` once if the buffer exceeds `history_length`. -/
def pushHistory (n : Nat) (buf : List ℚ) : Option ℚ → List ℚ
  | none => buf
  | some y =>
      let appended := buf ++ [y]
      if appended.length > n then appended.drop 1 else appended

/-- `HandCrossingCounter.update_hand_history`. -/
def update_hand_history (s : CounterState) (left_y right_y : Option ℚ) :
    CounterState :=
  { s with
    hand_history_left := pushHistory s.history_length s.hand_history_left left_y,
    hand_history_right := pushHistory s.history_length s.hand_history_right right_y }

/-- `HandCrossingCounter.get_counts_per_minute`: prune timestamps at or
before `current_time - 60`, then return 0 on an empty window, the warm-up
extrapolation while `elapsed < 60`, and the window length afterwards.
Returns the value together with the successor state (the pruning is a side
effect on `count_timestamps`). -/
def get_counts_per_minute (s : CounterState) (current_time : ℚ) :
    ℚ × CounterState :=
  let cutoff_time := current_time - 60
  let kept := s.count_timestamps.filter (fun t => decide (t > cutoff_time))
  let s' := { s with count_timestamps := kept }
  if kept.length = 0 then (0, s')
  else
    let elapsed_time := current_time - s.start_time
    if elapsed_time < 60 then
      if elapsed_time > 0 then (((kept.length : ℚ) / elapsed_time) * 60, s')
      else (0, s')
    else ((kept.length : ℚ), s')

/-- `HandCrossingCounter.detect_crossing`: with both current positions
present, sufficient separation and cooldown elapsed, an event fires when a
hand fell below the other relative to the previous sample, or — with no
previous positions — whenever the current positions differ. -/
def detect_crossing (s : CounterState) (now : ℚ) : Bool × CounterState :=
  match s.left_hand_y, s.right_hand_y with
  | some l, some r =>
      let y_distance := |l - r|
      if y_distance > s.min_crossing_distance ∧
          now - s.last_crossing_time > s.crossing_cooldown then
        let hand_fell_below : Bool :=
          match s.previous_left_y, s.previous_right_y with
          | some pl, some pr =>
              if l > r ∧ pl ≤ pr then true
              else if r > l ∧ pr ≤ pl then true
              else false
          | _, _ =>
              if l > r then true
              else if r > l then true
              else false
        if hand_fell_below then
          (true, { s with
            crossing_count := s.crossing_count + 1,
            last_crossing_time := now,
            count_timestamps := s.count_timestamps ++ [now] })
        else (false, s)
      else (false, s)
  | _, _ => (false, s)

/-- `HandCrossingCounter.reset_counter` (`time.time()` at the call is `now`). -/
def reset_counter (s : CounterState) (now : ℚ) : CounterState :=
  { s with
    crossing_count := 0,
    last_crossing_time := 0,
    start_time := now,
    count_timestamps := [] }

/-- One iteration of the main loop of `run` on a sample: store the previous
frame's positions into `previous_*`, store the sample, update the history,
then detect. -/
def observe (s : CounterState) (left_y right_y : Option ℚ) (now : ℚ) :
    Bool × CounterState :=
  let s1 := { s with
    previous_left_y := s.left_hand_y,
    previous_right_y := s.right_hand_y,
    left_hand_y := left_y,
    right_hand_y := right_y }
  let s2 := update_hand_history s1 left_y right_y
  detect_crossing s2 now

/-- A call into the core: a sample observation or a rate query. -/
inductive Op where
  | sample (left_y right_y : Option ℚ) (now : ℚ)
  | rateQuery (now : ℚ)
  deriving Repr, DecidableEq

/-- The timestamp an operation is made at. -/
def opTime : Op → ℚ
  | .sample _ _ t => t
  | .rateQuery t => t

/-- State transition of one operation. -/
def step (s : CounterState) : Op → CounterState
  | .sample l r t => (observe s l r t).2
  | .rateQuery t => (get_counts_per_minute s t).2

/-- Run a trace of operations. -/
def runTrace (s : CounterState) : List Op → CounterState
  | [] => s
  | o :: rest => runTrace (step s o) rest

/-- Timestamps of the events accepted along a trace, in order. -/
def traceEvents (s : CounterState) : List Op → List ℚ
  | [] => []
  | .sample l r t :: rest =>
      (if (observe s l r t).1 then [t] else []) ++
        traceEvents ((observe s l r t).2) rest
  | .rateQuery t :: rest => traceEvents ((get_counts_per_minute s t).2) rest

/-! ### Generic helper lemmas -/

/-- Appending the same list on the right preserves the suffix relation. -/
lemma suffix_append_same {α : Type} {a b : List α} (c : List α)
    (h : a <:+ b) : a ++ c <:+ b ++ c := by
  obtain ⟨p, hp⟩ := h
  exact ⟨p, by rw [← List.append_assoc, hp]⟩

/-- The state produced by a rate query is the input state with the
timestamp window pruned at `now - 60`. -/
lemma rate_snd (s : CounterState) (now : ℚ) :
    (get_counts_per_minute s now).2 =
      { s with count_timestamps :=
          s.count_timestamps.filter (fun t => decide (t > now - 60)) } := by
  unfold get_counts_per_minute
  dsimp only
  split_ifs <;> rfl

/-- The value of a rate query depends only on the pruned window and
`start_time`. -/
lemma rate_fst (s : CounterState) (now : ℚ) :
    (get_counts_per_minute s now).1 =
      (let kept := s.count_timestamps.filter (fun t => decide (t > now - 60))
       if kept.length = 0 then (0 : ℚ)
       else if now - s.start_time < 60 then
         if now - s.start_time > 0 then ((kept.length : ℚ) / (now - s.start_time)) * 60
         else 0
       else (kept.length : ℚ)) := by
  unfold get_counts_per_minute
  dsimp only
  split_ifs <;> rfl

/-! ### C1: what `reset_counter` does and does not clear -/

/-- C1 (counterexample): `reset_counter` leaves the previous-position
memory and the position-history buffers untouched, so after a reset from a
state that has them populated they are neither absent nor empty. -/
theorem reset_keeps_history_counterexample :
    ((reset_counter
        { initState 0 with
            previous_left_y := some (3/10),
            previous_right_y := some (1/2),
            hand_history_left := [3/10],
            hand_history_right := [1/2] } 7).previous_left_y ≠ none) ∧
    ((reset_counter
        { initState 0 with
            previous_left_y := some (3/10),
            previous_right_y := some (1/2),
            hand_history_left := [3/10],
            hand_history_right := [1/2] } 7).hand_history_left ≠ []) := by
  constructor <;> simp [reset_counter, initState]

/-- C1 (amended): for every prior state, `reset_counter` sets the count to
0, `last_crossing_time` to 0, restarts the session clock at the current
time and clears the timestamp sequence, while leaving the position-history
buffers, the previous positions and the current positions unchanged. -/
theorem reset_counter_spec (s : CounterState) (now : ℚ) :
    (reset_counter s now).crossing_count = 0 ∧
    (reset_counter s now).last_crossing_time = 0 ∧
    (reset_counter s now).start_time = now ∧
    (reset_counter s now).count_timestamps = [] ∧
    (reset_counter s now).hand_history_left = s.hand_history_left ∧
    (reset_counter s now).hand_history_right = s.hand_history_right ∧
    (reset_counter s now).previous_left_y = s.previous_left_y ∧
    (reset_counter s now).previous_right_y = s.previous_right_y ∧
    (reset_counter s now).left_hand_y = s.left_hand_y ∧
    (reset_counter s now).right_hand_y = s.right_hand_y := by
  simp [reset_counter]

/-! ### C6: minimum-separation guard -/

/-- C6: when both current positions are present but separated by at most
`min_crossing_distance`, `detect_crossing` reports no event and leaves the
state completely unchanged. -/
theorem detect_min_separation (s : CounterState) (now l r : ℚ)
    (hl : s.left_hand_y = some l) (hr : s.right_hand_y = some r)
    (hd : |l - r| ≤ s.min_crossing_distance) :
    detect_crossing s now = (false, s) := by
  unfold detect_crossing
  rw [hl, hr]
  dsimp only
  rw [if_neg]
  intro hcon
  exact absurd hcon.1 (not_lt.mpr hd)

/-- Witness for C6 at a concrete state with coincident hands. -/
theorem detect_min_separation_witness :
    detect_crossing
        { initState 0 with left_hand_y := some (1/2), right_hand_y := some (1/2) } 3 =
      (false, { initState 0 with left_hand_y := some (1/2), right_hand_y := some (1/2) }) :=
  detect_min_separation _ 3 (1/2) (1/2) rfl rfl (by norm_num [initState, abs])

/-! ### C8: the rate query is an idempotent pure read plus pruning -/

/-- C8: querying the rate twice at the same instant returns the same value
and the same state; a rate query never changes the count, the previous or
current positions, `last_crossing_time` or `start_time` — its only state
effect is pruning timestamps older than 60 seconds from the window. -/
theorem rate_idempotent_pure (s : CounterState) (now : ℚ) :
    (get_counts_per_minute (get_counts_per_minute s now).2 now).1 =
        (get_counts_per_minute s now).1 ∧
    (get_counts_per_minute (get_counts_per_minute s now).2 now).2 =
        (get_counts_per_minute s now).2 ∧
    (get_counts_per_minute s now).2 =
      { s with count_timestamps :=
          s.count_timestamps.filter (fun t => decide (t > now - 60)) } ∧
    (get_counts_per_minute s now).2.crossing_count = s.crossing_count ∧
    (get_counts_per_minute s now).2.previous_left_y = s.previous_left_y ∧
    (get_counts_per_minute s now).2.previous_right_y = s.previous_right_y ∧
    (get_counts_per_minute s now).2.last_crossing_time = s.last_crossing_time ∧
    (get_counts_per_minute s now).2.start_time = s.start_time := by
  have hfilter :
      (get_counts_per_minute s now).2.count_timestamps.filter
          (fun t => decide (t > now - 60)) =
        (get_counts_per_minute s now).2.count_timestamps := by
    rw [rate_snd]
    dsimp only
    rw [List.filter_filter]
    exact List.filter_congr (fun t _ => by rw [Bool.and_self])
  refine ⟨?_, ?_, rate_snd s now, ?_, ?_, ?_, ?_, ?_⟩
  · have hstart : (get_counts_per_minute s now).2.start_time = s.start_time := by
      rw [rate_snd]
    rw [rate_fst, rate_fst, hfilter, hstart, rate_snd s now]
  · rw [rate_snd ((get_counts_per_minute s now).2) now, hfilter]
  all_goals rw [rate_snd]

/-! ### C9: the history buffers hold the most recent non-absent readings -/

/-- Repeated `update_hand_history` calls over a list of samples. -/
def runHistory (s : CounterState) : List (Option ℚ × Option ℚ) → CounterState
  | [] => s
  | (l, r) :: rest => runHistory (update_hand_history s l r) rest

/-- One `pushHistory` step preserves "the buffer is the suffix of the
readings so far of length `min readings.length n`". -/
lemma pushHistory_inv (n : Nat) (buf L : List ℚ) (y : ℚ)
    (hsuf : buf <:+ L) (hlen : buf.length = min L.length n) :
    pushHistory n buf (some y) <:+ L ++ [y] ∧
      (pushHistory n buf (some y)).length = min (L ++ [y]).length n := by
  have hbl : buf.length ≤ L.length := hsuf.length_le
  unfold pushHistory
  dsimp only
  by_cases h : (buf ++ [y]).length > n
  · rw [if_pos h]
    constructor
    · exact (List.drop_suffix 1 (buf ++ [y])).trans (suffix_append_same [y] hsuf)
    · simp only [List.length_drop, List.length_append, List.length_singleton] at h ⊢
      omega
  · rw [if_neg h]
    refine ⟨suffix_append_same [y] hsuf, ?_⟩
    simp only [List.length_append, List.length_singleton] at h ⊢
    omega

/-- One `update_hand_history` step preserves the buffer invariant for both
hands and leaves the configured capacity unchanged. -/
lemma update_hand_history_inv (s : CounterState) (ol orr : Option ℚ)
    (L R : List ℚ)
    (h1 : s.hand_history_left <:+ L)
    (h2 : s.hand_history_left.length = min L.length s.history_length)
    (h3 : s.hand_history_right <:+ R)
    (h4 : s.hand_history_right.length = min R.length s.history_length) :
    (update_hand_history s ol orr).history_length = s.history_length ∧
    (update_hand_history s ol orr).hand_history_left <:+ L ++ ol.toList ∧
    (update_hand_history s ol orr).hand_history_left.length =
      min (L ++ ol.toList).length s.history_length ∧
    (update_hand_history s ol orr).hand_history_right <:+ R ++ orr.toList ∧
    (update_hand_history s ol orr).hand_history_right.length =
      min (R ++ orr.toList).length s.history_length := by
  rcases ol with _ | y <;> rcases orr with _ | z
  · exact ⟨rfl, by simpa [update_hand_history, pushHistory] using h1,
      by simpa [update_hand_history, pushHistory] using h2,
      by simpa [update_hand_history, pushHistory] using h3,
      by simpa [update_hand_history, pushHistory] using h4⟩
  · obtain ⟨g3, g4⟩ := pushHistory_inv s.history_length _ R z h3 h4
    exact ⟨rfl, by simpa [update_hand_history, pushHistory] using h1,
      by simpa [update_hand_history, pushHistory] using h2,
      by simpa [update_hand_history] using g3,
      by simpa [update_hand_history] using g4⟩
  · obtain ⟨g1, g2⟩ := pushHistory_inv s.history_length _ L y h1 h2
    exact ⟨rfl, by simpa [update_hand_history] using g1,
      by simpa [update_hand_history] using g2,
      by simpa [update_hand_history, pushHistory] using h3,
      by simpa [update_hand_history, pushHistory] using h4⟩
  · obtain ⟨g1, g2⟩ := pushHistory_inv s.history_length _ L y h1 h2
    obtain ⟨g3, g4⟩ := pushHistory_inv s.history_length _ R z h3 h4
    exact ⟨rfl, by simpa [update_hand_history] using g1,
      by simpa [update_hand_history] using g2,
      by simpa [update_hand_history] using g3,
      by simpa [update_hand_history] using g4⟩

/-- The buffer invariant carried through a whole run of history updates. -/
lemma runHistory_inv :
    ∀ (samples : List (Option ℚ × Option ℚ)) (s : CounterState) (L R : List ℚ),
      s.hand_history_left <:+ L →
      s.hand_history_left.length = min L.length s.history_length →
      s.hand_history_right <:+ R →
      s.hand_history_right.length = min R.length s.history_length →
      (runHistory s samples).history_length = s.history_length ∧
      (runHistory s samples).hand_history_left <:+
        L ++ samples.filterMap Prod.fst ∧
      (runHistory s samples).hand_history_left.length =
        min (L ++ samples.filterMap Prod.fst).length s.history_length ∧
      (runHistory s samples).hand_history_right <:+
        R ++ samples.filterMap Prod.snd ∧
      (runHistory s samples).hand_history_right.length =
        min (R ++ samples.filterMap Prod.snd).length s.history_length
  | [], s, L, R, h1, h2, h3, h4 => by
      simpa [runHistory] using ⟨h1, h2, h3, h4⟩
  | (ol, orr) :: rest, s, L, R, h1, h2, h3, h4 => by
      obtain ⟨hn, g1, g2, g3, g4⟩ := update_hand_history_inv s ol orr L R h1 h2 h3 h4
      have ih := runHistory_inv rest (update_hand_history s ol orr)
        (L ++ ol.toList) (R ++ orr.toList) g1 (hn ▸ g2) g3 (hn ▸ g4)
      simp only [runHistory, List.filterMap_cons]
      rcases ol with _ | y <;> rcases orr with _ | z <;>
        simpa [hn, List.append_assoc] using ih

/-- C9: starting from empty buffers, after any sequence of
`update_hand_history` calls each buffer holds at most `history_length`
entries and is exactly the most recent non-absent readings of its hand in
insertion order (a suffix of the reading sequence of full capacity, or all
readings when fewer exist); absent values are never recorded. -/
theorem history_buffer_invariant (s : CounterState)
    (samples : List (Option ℚ × Option ℚ))
    (hL : s.hand_history_left = []) (hR : s.hand_history_right = []) :
    (runHistory s samples).hand_history_left.length ≤ s.history_length ∧
    (runHistory s samples).hand_history_right.length ≤ s.history_length ∧
    (runHistory s samples).hand_history_left <:+
      samples.filterMap Prod.fst ∧
    (runHistory s samples).hand_history_left.length =
      min (samples.filterMap Prod.fst).length s.history_length ∧
    (runHistory s samples).hand_history_right <:+
      samples.filterMap Prod.snd ∧
    (runHistory s samples).hand_history_right.length =
      min (samples.filterMap Prod.snd).length s.history_length := by
  obtain ⟨-, g1, g2, g3, g4⟩ := runHistory_inv samples s [] []
    (by simp [hL]) (by simp [hL]) (by simp [hR]) (by simp [hR])
  simp only [List.nil_append] at g1 g2 g3 g4
  exact ⟨g2 ▸ Nat.min_le_right _ _, g4 ▸ Nat.min_le_right _ _, g1, g2, g3, g4⟩

/-- Witness for C9 on a concrete run with absent readings and an eviction. -/
theorem history_buffer_invariant_witness :
    (runHistory (initState 0)
        [(some 1, none), (some 2, some 5), (none, some 6), (some 3, some 7)]
      ).hand_history_left.length ≤ (initState 0).history_length ∧
    (runHistory (initState 0)
        [(some 1, none), (some 2, some 5), (none, some 6), (some 3, some 7)]
      ).hand_history_right.length ≤ (initState 0).history_length ∧
    (runHistory (initState 0)
        [(some 1, none), (some 2, some 5), (none, some 6), (some 3, some 7)]
      ).hand_history_left <:+ [1, 2, 3] ∧
    (runHistory (initState 0)
        [(some 1, none), (some 2, some 5), (none, some 6), (some 3, some 7)]
      ).hand_history_left.length = min 3 (initState 0).history_length ∧
    (runHistory (initState 0)
        [(some 1, none), (some 2, some 5), (none, some 6), (some 3, some 7)]
      ).hand_history_right <:+ [5, 6, 7] ∧
    (runHistory (initState 0)
        [(some 1, none), (some 2, some 5), (none, some 6), (some 3, some 7)]
      ).hand_history_right.length = min 3 (initState 0).history_length :=
  history_buffer_invariant (initState 0)
    [(some 1, none), (some 2, some 5), (none, some 6), (some 3, some 7)] rfl rfl

/-! ### C10: the history buffers never influence detection or rate -/

/-- Forget the history buffers of a state. -/
def eraseHistory (s : CounterState) : CounterState :=
  { s with hand_history_left := [], hand_history_right := [] }

/-- `detect_crossing` neither reads nor depends on the history buffers. -/
lemma detect_eraseHistory (s : CounterState) (now : ℚ) :
    detect_crossing (eraseHistory s) now =
      ((detect_crossing s now).1, eraseHistory (detect_crossing s now).2) := by
  obtain ⟨cc, lh, rh, pl, pr, lt, cd, st, ts, md, hhl, hhr, n⟩ := s
  unfold detect_crossing eraseHistory
  dsimp only
  cases lh <;> cases rh <;> try rfl
  cases pl <;> cases pr <;> dsimp only <;> split_ifs <;> rfl

/-- `get_counts_per_minute` neither reads nor depends on the history
buffers. -/
lemma rate_eraseHistory (s : CounterState) (now : ℚ) :
    get_counts_per_minute (eraseHistory s) now =
      ((get_counts_per_minute s now).1,
        eraseHistory (get_counts_per_minute s now).2) := by
  obtain ⟨cc, lh, rh, pl, pr, lt, cd, st, ts, md, hhl, hhr, n⟩ := s
  unfold get_counts_per_minute eraseHistory
  dsimp only
  split_ifs <;> rfl

/-- C10: two states that agree on everything except the history buffers
produce equal event results, equal rate values, and successor states equal
apart from the buffers themselves. -/
theorem history_noninterference (s₁ s₂ : CounterState) (now : ℚ)
    (h : eraseHistory s₁ = eraseHistory s₂) :
    (detect_crossing s₁ now).1 = (detect_crossing s₂ now).1 ∧
    eraseHistory (detect_crossing s₁ now).2 =
      eraseHistory (detect_crossing s₂ now).2 ∧
    (get_counts_per_minute s₁ now).1 = (get_counts_per_minute s₂ now).1 ∧
    eraseHistory (get_counts_per_minute s₁ now).2 =
      eraseHistory (get_counts_per_minute s₂ now).2 := by
  have hd₁ := detect_eraseHistory s₁ now
  have hd₂ := detect_eraseHistory s₂ now
  have hr₁ := rate_eraseHistory s₁ now
  have hr₂ := rate_eraseHistory s₂ now
  rw [h] at hd₁ hr₁
  have hdet := hd₁.symm.trans hd₂
  have hrate := hr₁.symm.trans hr₂
  rw [Prod.ext_iff] at hdet hrate
  exact ⟨hdet.1, hdet.2, hrate.1, hrate.2⟩

/-- Witness for C10 at two concrete states differing only in history. -/
theorem history_noninterference_witness :
    (detect_crossing (initState 0) 5).1 =
      (detect_crossing { initState 0 with hand_history_left := [1] } 5).1 ∧
    eraseHistory (detect_crossing (initState 0) 5).2 =
      eraseHistory
        (detect_crossing { initState 0 with hand_history_left := [1] } 5).2 ∧
    (get_counts_per_minute (initState 0) 5).1 =
      (get_counts_per_minute { initState 0 with hand_history_left := [1] } 5).1 ∧
    eraseHistory (get_counts_per_minute (initState 0) 5).2 =
      eraseHistory
        (get_counts_per_minute
          { initState 0 with hand_history_left := [1] } 5).2 :=
  history_noninterference (initState 0)
    { initState 0 with hand_history_left := [1] } 5 rfl

/-! ### C2: the three-sample scenario -/

/-- A fresh state configured with a 0.1-second cooldown. -/
def scenarioStart : CounterState := { initState 0 with crossing_cooldown := 1/10 }

/-- First scenario sample `(left=0.2, right=0.8)` at time `t`. -/
def scenario1 (t : ℚ) : Bool × CounterState :=
  observe scenarioStart (some (1/5)) (some (4/5)) t

/-- Second scenario sample `(left=0.9, right=0.1)` 0.01s later. -/
def scenario2 (t : ℚ) : Bool × CounterState :=
  observe (scenario1 t).2 (some (9/10)) (some (1/10)) (t + 1/100)

/-- Third scenario sample, identical to the second, 0.02s after it. -/
def scenario3 (t : ℚ) : Bool × CounterState :=
  observe (scenario2 t).2 (some (9/10)) (some (1/10)) (t + 3/100)

/-- C2 (counterexample): on the first sample of the scenario the code does
not merely seed the previous positions — with no previous positions the
bootstrap branch fires on the current order alone, so the first call
already reports an event, and the second call (0.01s later) is then
suppressed by the 0.1s cooldown instead of being the accepted event. -/
theorem scenario_first_call_fires :
    (scenario1 1).1 = true ∧ (scenario2 1).1 = false := by
  have e1 : scenario1 1 = (true,
      { crossing_count := 1, left_hand_y := some (1/5), right_hand_y := some (4/5),
        previous_left_y := none, previous_right_y := none, last_crossing_time := 1,
        crossing_cooldown := 1/10, start_time := 0, count_timestamps := [1],
        min_crossing_distance := 1/100, hand_history_left := [1/5],
        hand_history_right := [4/5], history_length := 2 }) := by
    simp [scenario1, scenarioStart, observe, update_hand_history, pushHistory,
      detect_crossing, initState]
    rw [if_pos ⟨by norm_num [abs], by norm_num⟩, if_neg (by norm_num)]
  refine ⟨by rw [e1], ?_⟩
  rw [scenario2, e1]
  simp [observe, update_hand_history, pushHistory, detect_crossing]
  norm_num

/-- C2 (amended): starting fresh with `cooldown = 0.1`, at any start time
past the cooldown the first sample is accepted immediately through the
bootstrap rule (count becomes 1), the second sample 0.01s later is
suppressed by the cooldown, the third sample 0.02s after that produces no
event either (no order flip, and still within cooldown), and the total
count after the three calls is 1 with the increment on the first call. -/
theorem crossing_scenario_code (t : ℚ) (ht : 1/10 < t) :
    (scenario1 t).1 = true ∧ (scenario1 t).2.crossing_count = 1 ∧
    (scenario2 t).1 = false ∧ (scenario3 t).1 = false ∧
    (scenario3 t).2.crossing_count = 1 := by
  have e1 : scenario1 t = (true,
      { crossing_count := 1, left_hand_y := some (1/5), right_hand_y := some (4/5),
        previous_left_y := none, previous_right_y := none, last_crossing_time := t,
        crossing_cooldown := 1/10, start_time := 0, count_timestamps := [t],
        min_crossing_distance := 1/100, hand_history_left := [1/5],
        hand_history_right := [4/5], history_length := 2 }) := by
    simp [scenario1, scenarioStart, observe, update_hand_history, pushHistory,
      detect_crossing, initState]
    rw [if_pos ⟨by norm_num [abs], by norm_num at ht ⊢; exact ht⟩,
      if_neg (by norm_num)]
  have e2 : scenario2 t = (false,
      { crossing_count := 1, left_hand_y := some (9/10), right_hand_y := some (1/10),
        previous_left_y := some (1/5), previous_right_y := some (4/5),
        last_crossing_time := t, crossing_cooldown := 1/10, start_time := 0,
        count_timestamps := [t], min_crossing_distance := 1/100,
        hand_history_left := [1/5, 9/10], hand_history_right := [4/5, 1/10],
        history_length := 2 }) := by
    rw [scenario2, e1]
    simp [observe, update_hand_history, pushHistory, detect_crossing]
    rintro - h
    norm_num at h
  have e3 : scenario3 t = (false,
      { crossing_count := 1, left_hand_y := some (9/10), right_hand_y := some (1/10),
        previous_left_y := some (9/10), previous_right_y := some (1/10),
        last_crossing_time := t, crossing_cooldown := 1/10, start_time := 0,
        count_timestamps := [t], min_crossing_distance := 1/100,
        hand_history_left := [9/10, 9/10], hand_history_right := [1/10, 1/10],
        history_length := 2 }) := by
    rw [scenario3, e2]
    simp [observe, update_hand_history, pushHistory, detect_crossing]
  rw [e1, e2, e3]
  norm_num

/-- Witness for the amended C2 scenario at start time 1. -/
theorem crossing_scenario_code_witness :
    (scenario1 1).1 = true ∧ (scenario1 1).2.crossing_count = 1 ∧
    (scenario2 1).1 = false ∧ (scenario3 1).1 = false ∧
    (scenario3 1).2.crossing_count = 1 :=
  crossing_scenario_code 1 (by norm_num)

/-! ### C7: absent samples -/

/-- C7: a sample with an absent hand never produces an event and still
updates the position memory (current values stored, previous values set to
the prior sample, absent preserved); concretely, `observe(absent, 0.5, t)`
from a fresh state reports no event, and the following
`observe(0.3, 0.5, t+0.05)` is evaluated with no valid previous order
(its stored previous left position is absent) so the bootstrap rule
applies: it fires exactly when its cooldown guard passes, from the current
order alone. -/
theorem absent_sample_policy :
    (∀ (s : CounterState) (l r : Option ℚ) (t : ℚ), l = none ∨ r = none →
        (observe s l r t).1 = false ∧
        (observe s l r t).2.left_hand_y = l ∧
        (observe s l r t).2.right_hand_y = r ∧
        (observe s l r t).2.previous_left_y = s.left_hand_y ∧
        (observe s l r t).2.previous_right_y = s.right_hand_y ∧
        (observe s l r t).2.crossing_count = s.crossing_count) ∧
    (∀ u t : ℚ,
        (observe (initState u) none (some (1/2)) t).1 = false ∧
        ((observe ((observe (initState u) none (some (1/2)) t).2)
            (some (3/10)) (some (1/2)) (t + 1/20)).2.previous_left_y = none) ∧
        (((observe ((observe (initState u) none (some (1/2)) t).2)
            (some (3/10)) (some (1/2)) (t + 1/20)).1 = true) ↔ 0 < t)) := by
  constructor
  · rintro s l r t h
    rcases l with _ | lv
    · simp [observe, update_hand_history, detect_crossing, pushHistory]
    · rcases r with _ | rv
      · simp [observe, update_hand_history, detect_crossing, pushHistory]
      · rcases h with h | h <;> exact absurd h (by simp)
  · intro u t
    have e1 : observe (initState u) none (some (1/2)) t = (false,
        { crossing_count := 0, left_hand_y := none, right_hand_y := some (1/2),
          previous_left_y := none, previous_right_y := none, last_crossing_time := 0,
          crossing_cooldown := 1/20, start_time := u, count_timestamps := [],
          min_crossing_distance := 1/100, hand_history_left := [],
          hand_history_right := [1/2], history_length := 2 }) := by
      simp [observe, update_hand_history, detect_crossing, pushHistory, initState]
    rw [e1]
    refine ⟨rfl, ?_, ?_⟩
    · simp [observe, update_hand_history, detect_crossing, pushHistory]
      split_ifs <;> rfl
    · simp [observe, update_hand_history, detect_crossing, pushHistory]
      constructor
      · intro h1
        by_contra h0
        rw [if_neg] at h1
        · simp at h1
        · rintro ⟨-, hc⟩
          apply h0
          linarith
      · intro h0
        rw [if_pos ⟨by norm_num [abs], by linarith⟩, if_neg (by norm_num)]

/-- Witness for C7 at a concrete absent sample from a fresh state. -/
theorem absent_sample_policy_witness :
    (observe (initState 0) none (some (1/2)) 2).1 = false ∧
    (observe (initState 0) none (some (1/2)) 2).2.left_hand_y = none ∧
    (observe (initState 0) none (some (1/2)) 2).2.right_hand_y = some (1/2) ∧
    (observe (initState 0) none (some (1/2)) 2).2.previous_left_y =
      (initState 0).left_hand_y ∧
    (observe (initState 0) none (some (1/2)) 2).2.previous_right_y =
      (initState 0).right_hand_y ∧
    (observe (initState 0) none (some (1/2)) 2).2.crossing_count =
      (initState 0).crossing_count :=
  absent_sample_policy.1 (initState 0) none (some (1/2)) 2 (Or.inl rfl)

/-! ### Trace lemmas shared by the cooldown, count and rate claims -/

/-- An `observe` call either accepts an event — incrementing the count,
appending `now` to the window and moving `last_crossing_time` to `now`,
which requires the cooldown to have elapsed — or leaves the count, the
window and `last_crossing_time` unchanged. -/
lemma observe_cases (s : CounterState) (l r : Option ℚ) (t : ℚ) :
    ((observe s l r t).1 = true ∧
      (observe s l r t).2.crossing_count = s.crossing_count + 1 ∧
      (observe s l r t).2.count_timestamps = s.count_timestamps ++ [t] ∧
      (observe s l r t).2.last_crossing_time = t ∧
      s.crossing_cooldown < t - s.last_crossing_time) ∨
    ((observe s l r t).1 = false ∧
      (observe s l r t).2.crossing_count = s.crossing_count ∧
      (observe s l r t).2.count_timestamps = s.count_timestamps ∧
      (observe s l r t).2.last_crossing_time = s.last_crossing_time) := by
  obtain ⟨cc, lh, rh, pl, pr, lt, cd, st, ts, md, hhl, hhr, n⟩ := s
  rcases l with _ | lv
  · right
    simp [observe, update_hand_history, detect_crossing]
  rcases r with _ | rv
  · right
    simp [observe, update_hand_history, detect_crossing]
  simp only [observe, update_hand_history, detect_crossing]
  by_cases h1 : |lv - rv| > md ∧ t - lt > cd
  · rw [if_pos h1]
    split_ifs <;>
      first
        | exact Or.inl ⟨rfl, rfl, rfl, rfl, h1.2⟩
        | exact Or.inr ⟨rfl, rfl, rfl, rfl⟩
  · rw [if_neg h1]
    right
    exact ⟨rfl, rfl, rfl, rfl⟩

/-- `observe` never changes the configuration fields or the session
clock. -/
lemma observe_fields (s : CounterState) (l r : Option ℚ) (t : ℚ) :
    (observe s l r t).2.crossing_cooldown = s.crossing_cooldown ∧
    (observe s l r t).2.start_time = s.start_time ∧
    (observe s l r t).2.min_crossing_distance = s.min_crossing_distance := by
  obtain ⟨cc, lh, rh, pl, pr, lt, cd, st, ts, md, hhl, hhr, n⟩ := s
  rcases l with _ | lv
  · exact ⟨rfl, rfl, rfl⟩
  rcases r with _ | rv
  · exact ⟨rfl, rfl, rfl⟩
  simp only [observe, update_hand_history, detect_crossing]
  split_ifs <;> exact ⟨rfl, rfl, rfl⟩

/-- A step never changes the cooldown or the session clock. -/
lemma step_fields (s : CounterState) (o : Op) :
    (step s o).crossing_cooldown = s.crossing_cooldown ∧
    (step s o).start_time = s.start_time := by
  cases o with
  | sample l r t => exact ⟨(observe_fields s l r t).1, (observe_fields s l r t).2.1⟩
  | rateQuery t => rw [step, rate_snd]; exact ⟨rfl, rfl⟩

/-- A whole trace never changes the cooldown or the session clock. -/
lemma runTrace_fields :
    ∀ (ops : List Op) (s : CounterState),
      (runTrace s ops).crossing_cooldown = s.crossing_cooldown ∧
      (runTrace s ops).start_time = s.start_time
  | [], s => ⟨rfl, rfl⟩
  | o :: rest, s => by
      obtain ⟨h1, h2⟩ := runTrace_fields rest (step s o)
      exact ⟨h1.trans (step_fields s o).1, h2.trans (step_fields s o).2⟩

/-- Running a concatenated trace runs the pieces in order. -/
lemma runTrace_append :
    ∀ (l₁ l₂ : List Op) (s : CounterState),
      runTrace s (l₁ ++ l₂) = runTrace (runTrace s l₁) l₂
  | [], l₂, s => rfl
  | o :: rest, l₂, s => by
      simp only [List.cons_append, runTrace]
      exact runTrace_append rest l₂ (step s o)

/-- One step changes the count by zero or one. -/
lemma step_count (s : CounterState) (o : Op) :
    (step s o).crossing_count = s.crossing_count ∨
      (step s o).crossing_count = s.crossing_count + 1 := by
  cases o with
  | sample l r t =>
      rcases observe_cases s l r t with ⟨-, hc, -, -, -⟩ | ⟨-, hc, -, -⟩
      · exact Or.inr hc
      · exact Or.inl hc
  | rateQuery t => rw [step, rate_snd]; exact Or.inl rfl

/-- Filtering a strictly sorted list with an upward-closed bound keeps a
suffix. -/
lemma filter_suffix_of_sorted (x : ℚ) :
    ∀ (l : List ℚ), l.Pairwise (· < ·) →
      l.filter (fun u => decide (u > x)) <:+ l
  | [], _ => List.suffix_refl []
  | a :: tl, hp => by
      by_cases hx : a > x
      · have htl : tl.filter (fun u => decide (u > x)) = tl := by
          rw [List.filter_eq_self]
          intro u hu
          exact decide_eq_true (lt_trans hx ((List.pairwise_cons.mp hp).1 u hu))
        have hpa : (fun u => decide (u > x)) a = true := by simpa using hx
        rw [List.filter_cons, if_pos hpa, htl]
      · have hpa : ¬ ((fun u => decide (u > x)) a = true) := by simpa using hx
        rw [List.filter_cons, if_neg hpa]
        exact (filter_suffix_of_sorted x tl (List.pairwise_cons.mp hp).2).trans
          ⟨[a], rfl⟩

/-- The count/window invariant carried along a trace: the count equals the
number of events accepted so far, the retained window is a suffix of the
accepted timestamps, strictly sorted, and bounded by `last_crossing_time`. -/
lemma trace_inv :
    ∀ (ops : List Op) (s : CounterState) (evs : List ℚ),
      0 ≤ s.crossing_cooldown →
      s.crossing_count = evs.length →
      s.count_timestamps <:+ evs →
      s.count_timestamps.Pairwise (· < ·) →
      (∀ u ∈ s.count_timestamps, u ≤ s.last_crossing_time) →
      (runTrace s ops).crossing_count = (evs ++ traceEvents s ops).length ∧
      (runTrace s ops).count_timestamps <:+ evs ++ traceEvents s ops ∧
      (runTrace s ops).count_timestamps.Pairwise (· < ·) ∧
      (∀ u ∈ (runTrace s ops).count_timestamps,
        u ≤ (runTrace s ops).last_crossing_time)
  | [], s, evs, hcd, hcount, hsuf, hsort, hbound => by
      simp only [runTrace, traceEvents, List.append_nil]
      exact ⟨hcount, hsuf, hsort, hbound⟩
  | .sample l r t :: rest, s, evs, hcd, hcount, hsuf, hsort, hbound => by
      have hcd' : 0 ≤ (observe s l r t).2.crossing_cooldown := by
        rw [(observe_fields s l r t).1]; exact hcd
      rcases observe_cases s l r t with
        ⟨hev, hc, hts, hlast, hgap⟩ | ⟨hev, hc, hts, hlast⟩
      · have hlt : s.last_crossing_time < t := by
          have := lt_of_le_of_lt hcd hgap
          linarith
        have hsort' : (observe s l r t).2.count_timestamps.Pairwise (· < ·) := by
          rw [hts, List.pairwise_append]
          exact ⟨hsort, List.pairwise_singleton _ _,
            fun u hu b hb => by
              rw [List.mem_singleton] at hb
              exact hb ▸ lt_of_le_of_lt (hbound u hu) hlt⟩
        have hbound' : ∀ u ∈ (observe s l r t).2.count_timestamps,
            u ≤ (observe s l r t).2.last_crossing_time := by
          rw [hts, hlast]
          intro u hu
          rcases List.mem_append.mp hu with hu | hu
          · exact le_of_lt (lt_of_le_of_lt (hbound u hu) hlt)
          · rw [List.mem_singleton] at hu
            exact hu.le
        have hsuf' : (observe s l r t).2.count_timestamps <:+ evs ++ [t] := by
          rw [hts]
          exact suffix_append_same [t] hsuf
        have hcount' : (observe s l r t).2.crossing_count = (evs ++ [t]).length := by
          rw [hc, hcount]
          simp
        obtain ⟨g1, g2, g3, g4⟩ := trace_inv rest ((observe s l r t).2)
          (evs ++ [t]) hcd' hcount' hsuf' hsort' hbound'
        simp only [runTrace, step, traceEvents, hev, if_pos, List.append_assoc] at g1 g2 ⊢
        exact ⟨g1, g2, g3, g4⟩
      · obtain ⟨g1, g2, g3, g4⟩ := trace_inv rest ((observe s l r t).2) evs hcd'
          (hc.trans hcount) (hts ▸ hsuf) (hts ▸ hsort)
          (fun u hu => hlast ▸ hbound u (hts ▸ hu))
        simp only [runTrace, step, traceEvents, hev, List.append_assoc] at g1 g2 ⊢
        exact ⟨g1, g2, g3, g4⟩
  | .rateQuery t :: rest, s, evs, hcd, hcount, hsuf, hsort, hbound => by
      have hball : ∀ u ∈ (get_counts_per_minute s t).2.count_timestamps,
          u ≤ (get_counts_per_minute s t).2.last_crossing_time := by
        rw [rate_snd]
        intro u hu
        exact hbound u (List.mem_of_mem_filter hu)
      have hsort' : (get_counts_per_minute s t).2.count_timestamps.Pairwise (· < ·) := by
        rw [rate_snd]
        exact hsort.sublist (List.filter_sublist _)
      have hsuf' : (get_counts_per_minute s t).2.count_timestamps <:+ evs := by
        rw [rate_snd]
        exact ((filter_suffix_of_sorted (t - 60) _ hsort).trans hsuf)
      have hcd' : 0 ≤ (get_counts_per_minute s t).2.crossing_cooldown := by
        rw [rate_snd]; exact hcd
      have hcount' : (get_counts_per_minute s t).2.crossing_count = evs.length := by
        rw [rate_snd]; exact hcount
      obtain ⟨g1, g2, g3, g4⟩ := trace_inv rest ((get_counts_per_minute s t).2) evs
        hcd' hcount' hsuf' hsort' hball
      simp only [runTrace, step, traceEvents] at g1 g2 ⊢
      exact ⟨g1, g2, g3, g4⟩

/-! ### C5: monotonic count and window subsequence invariant -/

/-- C5: along any trace of observe calls and rate queries from a fresh
state (and non-negative cooldown), at every point the count equals the
number of events accepted so far, each call changes the count by at most
one and never decreases it, and the retained timestamp window is always a
suffix (hence an order-preserving, never longer subsequence) of the
accepted-event timestamps. -/
theorem count_invariants (s : CounterState) (ops : List Op)
    (hcd : 0 ≤ s.crossing_cooldown)
    (hcount : s.crossing_count = 0)
    (hts : s.count_timestamps = []) :
    (∀ k, (runTrace s (ops.take k)).crossing_count =
        (traceEvents s (ops.take k)).length) ∧
    (∀ k, (runTrace s (ops.take k)).crossing_count ≤
        (runTrace s (ops.take (k+1))).crossing_count ∧
      (runTrace s (ops.take (k+1))).crossing_count ≤
        (runTrace s (ops.take k)).crossing_count + 1) ∧
    (∀ k, (runTrace s (ops.take k)).count_timestamps <:+
        traceEvents s (ops.take k)) := by
  have base : ∀ (l : List Op),
      (runTrace s l).crossing_count = (traceEvents s l).length ∧
      (runTrace s l).count_timestamps <:+ traceEvents s l := by
    intro l
    obtain ⟨g1, g2, -, -⟩ := trace_inv l s [] hcd hcount
      (by rw [hts]) (by rw [hts]; exact List.Pairwise.nil)
      (by rw [hts]; intro u hu; cases hu)
    rw [List.nil_append] at g1 g2
    exact ⟨g1, g2⟩
  refine ⟨fun k => (base (ops.take k)).1, fun k => ?_, fun k => (base (ops.take k)).2⟩
  rw [List.take_succ, runTrace_append]
  rcases h : ops[k]? with _ | o
  · simp [runTrace]
  · simp only [Option.toList]
    rcases step_count (runTrace s (ops.take k)) o with h' | h' <;>
      simp only [runTrace, h'] <;> omega

/-- Witness for C5 on a concrete two-sample trace with a rate query. -/
theorem count_invariants_witness :
    (∀ k, (runTrace (initState 0)
        ([Op.sample (some (1/5)) (some (4/5)) 1,
          Op.rateQuery 2,
          Op.sample (some (9/10)) (some (1/10)) 3].take k)).crossing_count =
      (traceEvents (initState 0)
        ([Op.sample (some (1/5)) (some (4/5)) 1,
          Op.rateQuery 2,
          Op.sample (some (9/10)) (some (1/10)) 3].take k)).length) ∧
    (∀ k, (runTrace (initState 0)
        ([Op.sample (some (1/5)) (some (4/5)) 1,
          Op.rateQuery 2,
          Op.sample (some (9/10)) (some (1/10)) 3].take k)).crossing_count ≤
        (runTrace (initState 0)
          ([Op.sample (some (1/5)) (some (4/5)) 1,
            Op.rateQuery 2,
            Op.sample (some (9/10)) (some (1/10)) 3].take (k+1))).crossing_count ∧
      (runTrace (initState 0)
        ([Op.sample (some (1/5)) (some (4/5)) 1,
          Op.rateQuery 2,
          Op.sample (some (9/10)) (some (1/10)) 3].take (k+1))).crossing_count ≤
        (runTrace (initState 0)
          ([Op.sample (some (1/5)) (some (4/5)) 1,
            Op.rateQuery 2,
            Op.sample (some (9/10)) (some (1/10)) 3].take k)).crossing_count + 1) ∧
    (∀ k, (runTrace (initState 0)
        ([Op.sample (some (1/5)) (some (4/5)) 1,
          Op.rateQuery 2,
          Op.sample (some (9/10)) (some (1/10)) 3].take k)).count_timestamps <:+
      traceEvents (initState 0)
        ([Op.sample (some (1/5)) (some (4/5)) 1,
          Op.rateQuery 2,
          Op.sample (some (9/10)) (some (1/10)) 3].take k)) :=
  count_invariants (initState 0)
    [Op.sample (some (1/5)) (some (4/5)) 1,
     Op.rateQuery 2,
     Op.sample (some (9/10)) (some (1/10)) 3]
    (by norm_num [initState]) rfl rfl

/-! ### C4: cooldown exclusion -/

/-- The accepted-event timestamps of a trace form a chain whose gaps all
exceed the cooldown, anchored at the incoming `last_crossing_time`. -/
lemma trace_chain (c : ℚ) :
    ∀ (ops : List Op) (s : CounterState), s.crossing_cooldown = c →
      List.Chain' (fun a b => a + c < b)
        (s.last_crossing_time :: traceEvents s ops)
  | [], s, hc => by simp [traceEvents]
  | .sample l r t :: rest, s, hc => by
      have ih := trace_chain c rest ((observe s l r t).2)
        (by rw [(observe_fields s l r t).1, hc])
      rcases observe_cases s l r t with
        ⟨hev, -, -, hlast, hgap⟩ | ⟨hev, -, -, hlast⟩
      · rw [hlast] at ih
        simp only [traceEvents, hev, if_pos, List.singleton_append]
        rw [List.chain'_cons]
        refine ⟨?_, ih⟩
        rw [hc] at hgap
        linarith
      · rw [hlast] at ih
        simpa only [traceEvents, hev, if_neg, Bool.false_eq_true,
          not_false_eq_true, List.nil_append] using ih
  | .rateQuery t :: rest, s, hc => by
      have ih := trace_chain c rest ((get_counts_per_minute s t).2)
        (by rw [rate_snd]; exact hc)
      have hlast : ((get_counts_per_minute s t).2).last_crossing_time =
          s.last_crossing_time := by rw [rate_snd]
      rw [hlast] at ih
      simpa only [traceEvents] using ih

/-- C4: along any trace with non-decreasing call timestamps and no reset,
any two distinct accepted events are separated by strictly more than the
cooldown. -/
theorem cooldown_exclusion (s : CounterState) (ops : List Op)
    (hcd : 0 ≤ s.crossing_cooldown)
    (hmono : List.Chain' (· ≤ ·) (ops.map opTime)) :
    List.Pairwise (fun a b => s.crossing_cooldown < b - a)
      (traceEvents s ops) := by
  have hch := trace_chain s.crossing_cooldown ops s rfl
  have htail : List.Chain' (fun a b => a + s.crossing_cooldown < b)
      (traceEvents s ops) := hch.tail
  have hpw : List.Pairwise (fun a b => a + s.crossing_cooldown < b)
      (traceEvents s ops) := by
    have : IsTrans ℚ (fun a b => a + s.crossing_cooldown < b) := by
      constructor
      intro a b d hab hbd
      have hb : b ≤ b + s.crossing_cooldown := le_add_of_nonneg_right hcd
      linarith
    exact List.chain'_iff_pairwise.mp htail
  exact hpw.imp (fun h => by linarith)

/-- Witness for C4 on a concrete trace accepting two events. -/
theorem cooldown_exclusion_witness :
    List.Pairwise
      (fun a b => (initState 0).crossing_cooldown < b - a)
      (traceEvents (initState 0)
        [Op.sample (some (1/5)) (some (4/5)) 1,
         Op.sample (some (9/10)) (some (1/10)) 2]) :=
  cooldown_exclusion (initState 0)
    [Op.sample (some (1/5)) (some (4/5)) 1,
     Op.sample (some (9/10)) (some (1/10)) 2]
    (by norm_num [initState])
    (by simp [opTime])

/-! ### C3: the rate computation -/

/-- Along a trace with non-decreasing call times (all bounded below by
`b`), pruning commutes: filtering the retained window at any cutoff at or
after every call time gives the same result as filtering the full
accepted-event sequence. -/
lemma trace_filter :
    ∀ (ops : List Op) (s : CounterState) (evs : List ℚ) (b : ℚ),
      (∀ q, b ≤ q →
          s.count_timestamps.filter (fun u => decide (u > q - 60)) =
            evs.filter (fun u => decide (u > q - 60))) →
      List.Chain' (· ≤ ·) (b :: ops.map opTime) →
      ∀ q, b ≤ q → (∀ o ∈ ops, opTime o ≤ q) →
        (runTrace s ops).count_timestamps.filter
            (fun u => decide (u > q - 60)) =
          (evs ++ traceEvents s ops).filter (fun u => decide (u > q - 60))
  | [], s, evs, b, hinv, hchain, q, hbq, hall => by
      simpa only [runTrace, traceEvents, List.append_nil] using hinv q hbq
  | .sample l r t :: rest, s, evs, b, hinv, hchain, q, hbq, hall => by
      have hbt : b ≤ t := (List.chain'_cons.mp hchain).1
      have hchain' : List.Chain' (· ≤ ·) (t :: (rest.map opTime)) :=
        (List.chain'_cons.mp hchain).2
      have htq : t ≤ q := hall _ (List.mem_cons_self _ _)
      have hallr : ∀ o ∈ rest, opTime o ≤ q :=
        fun o ho => hall o (List.mem_cons_of_mem _ ho)
      rcases observe_cases s l r t with
        ⟨hev, -, hts, -, -⟩ | ⟨hev, -, hts, -⟩
      · have hinv' : ∀ q', t ≤ q' →
            (observe s l r t).2.count_timestamps.filter
                (fun u => decide (u > q' - 60)) =
              (evs ++ [t]).filter (fun u => decide (u > q' - 60)) := by
          intro q' htq'
          rw [hts, List.filter_append, List.filter_append,
            hinv q' (hbt.trans htq')]
        have ih := trace_filter rest ((observe s l r t).2) (evs ++ [t]) t
          hinv' hchain' q htq hallr
        simp only [runTrace, step, traceEvents, hev, if_pos,
          List.singleton_append] at ih ⊢
        rw [ih, List.append_assoc]
        rfl
      · have hinv' : ∀ q', t ≤ q' →
            (observe s l r t).2.count_timestamps.filter
                (fun u => decide (u > q' - 60)) =
              evs.filter (fun u => decide (u > q' - 60)) := by
          intro q' htq'
          rw [hts]
          exact hinv q' (hbt.trans htq')
        have ih := trace_filter rest ((observe s l r t).2) evs t
          hinv' hchain' q htq hallr
        simpa only [runTrace, step, traceEvents, hev, Bool.false_eq_true,
          not_false_eq_true, if_neg, List.nil_append] using ih
  | .rateQuery t :: rest, s, evs, b, hinv, hchain, q, hbq, hall => by
      have hbt : b ≤ t := (List.chain'_cons.mp hchain).1
      have hchain' : List.Chain' (· ≤ ·) (t :: (rest.map opTime)) :=
        (List.chain'_cons.mp hchain).2
      have htq : t ≤ q := hall _ (List.mem_cons_self _ _)
      have hallr : ∀ o ∈ rest, opTime o ≤ q :=
        fun o ho => hall o (List.mem_cons_of_mem _ ho)
      have hinv' : ∀ q', t ≤ q' →
          (get_counts_per_minute s t).2.count_timestamps.filter
              (fun u => decide (u > q' - 60)) =
            evs.filter (fun u => decide (u > q' - 60)) := by
        intro q' htq'
        rw [rate_snd]
        dsimp only
        rw [List.filter_filter]
        rw [List.filter_congr (fun u _ => ?_), hinv q' (hbt.trans htq')]
        by_cases hu : u > q' - 60
        · have hu2 : u > t - 60 := by linarith
          simp [hu, hu2]
        · simp [hu]
      have ih := trace_filter rest ((get_counts_per_minute s t).2) evs t
        hinv' hchain' q htq hallr
      simpa only [runTrace, step, traceEvents] using ih

/-- C3: the rate query prunes at `now - 60`, returns 0 on an empty window,
extrapolates `len/elapsed*60` during warm-up (0 when `elapsed ≤ 0`), and
after warm-up — for any trace with non-decreasing call times from a fresh
window — returns exactly the number of accepted events newer than
`now - 60`; in particular a single event at `t0` with session start
`t0 - 5` queried at `t0 + 10` yields 4. -/
theorem rate_specification :
    (∀ (s : CounterState) (now : ℚ),
        s.count_timestamps.filter (fun u => decide (u > now - 60)) = [] →
        (get_counts_per_minute s now).1 = 0) ∧
    (∀ (s : CounterState) (now : ℚ),
        s.count_timestamps.filter (fun u => decide (u > now - 60)) ≠ [] →
        now - s.start_time < 60 → 0 < now - s.start_time →
        (get_counts_per_minute s now).1 =
          (((s.count_timestamps.filter
              (fun u => decide (u > now - 60))).length : ℚ) /
            (now - s.start_time)) * 60) ∧
    (∀ (s : CounterState) (now : ℚ),
        s.count_timestamps.filter (fun u => decide (u > now - 60)) ≠ [] →
        now - s.start_time < 60 → now - s.start_time ≤ 0 →
        (get_counts_per_minute s now).1 = 0) ∧
    (∀ (s : CounterState) (ops : List Op) (q : ℚ),
        s.count_timestamps = [] →
        List.Chain' (· ≤ ·) (ops.map opTime) →
        (∀ o ∈ ops, opTime o ≤ q) →
        60 ≤ q - s.start_time →
        (get_counts_per_minute (runTrace s ops) q).1 =
          (((traceEvents s ops).filter
              (fun u => decide (u > q - 60))).length : ℚ)) ∧
    (∀ t0 : ℚ,
        (get_counts_per_minute
          { initState (t0 - 5) with count_timestamps := [t0] } (t0 + 10)).1
          = 4) := by
  refine ⟨?_, ?_, ?_, ?_, ?_⟩
  · intro s now h
    rw [rate_fst]
    dsimp only
    rw [h]
    simp
  · intro s now h1 h2 h3
    rw [rate_fst]
    dsimp only
    rw [if_neg (mt List.length_eq_zero.mp h1), if_pos h2, if_pos h3]
  · intro s now h1 h2 h3
    rw [rate_fst]
    dsimp only
    rw [if_neg (mt List.length_eq_zero.mp h1), if_pos h2,
      if_neg (not_lt.mpr h3)]
  · intro s ops q hts hchain hall helapsed
    have hstart := (runTrace_fields ops s).2
    have hbq : (ops.map opTime).headD q ≤ q := by
      cases ops with
      | nil => simp
      | cons o rest =>
          simp only [List.map_cons, List.headD_cons]
          exact hall o (List.mem_cons_self _ _)
    have hchain2 : List.Chain' (· ≤ ·)
        ((ops.map opTime).headD q :: ops.map opTime) := by
      cases ops with
      | nil => simp
      | cons o rest =>
          simp only [List.map_cons, List.headD_cons]
          exact List.chain'_cons.mpr ⟨le_refl _, by simpa using hchain⟩
    have hfil := trace_filter ops s [] ((ops.map opTime).headD q)
      (by intro q' _; rw [hts]) hchain2 q hbq hall
    rw [List.nil_append] at hfil
    rw [rate_fst]
    dsimp only
    rw [hfil, hstart]
    by_cases hlen : ((traceEvents s ops).filter
        (fun u => decide (u > q - 60))).length = 0
    · rw [if_pos hlen, hlen]
      simp
    · rw [if_neg hlen, if_neg (not_lt.mpr helapsed)]
  · intro t0
    rw [rate_fst]
    simp only [initState]
    have hfil : [t0].filter (fun u => decide (u > t0 + 10 - 60)) = [t0] := by
      rw [List.filter_eq_self]
      intro u hu
      rw [List.mem_singleton] at hu
      subst hu
      exact decide_eq_true (by linarith)
    rw [hfil]
    rw [if_neg (by simp), if_pos (by linarith), if_pos (by linarith)]
    rw [show t0 + 10 - (t0 - 5) = (15 : ℚ) by ring]
    norm_num

/-- Witness for C3 at concrete states and a concrete post-warm-up trace. -/
theorem rate_specification_witness :
    (get_counts_per_minute (initState 0) 0).1 = 0 ∧
    (get_counts_per_minute
        { initState 15 with count_timestamps := [20] } 30).1 =
      ((([20] : List ℚ).filter (fun u => decide (u > (30 : ℚ) - 60))).length : ℚ) /
        ((30 : ℚ) - 15) * 60 ∧
    (get_counts_per_minute
        { initState 8 with count_timestamps := [7] } 7).1 = 0 ∧
    (get_counts_per_minute
        (runTrace (initState 0) [Op.sample (some (1/5)) (some (4/5)) 1]) 70).1 =
      (((traceEvents (initState 0) [Op.sample (some (1/5)) (some (4/5)) 1]).filter
          (fun u => decide (u > (70 : ℚ) - 60))).length : ℚ) ∧
    (get_counts_per_minute
      { initState ((3 : ℚ) - 5) with count_timestamps := [3] } ((3 : ℚ) + 10)).1 = 4 := by
  refine ⟨?_, ?_, ?_, ?_, ?_⟩
  · exact rate_specification.1 (initState 0) 0 (by rfl)
  · exact rate_specification.2.1 { initState 15 with count_timestamps := [20] } 30
      (by norm_num) (by norm_num [initState]) (by norm_num [initState])
  · exact rate_specification.2.2.1 { initState 8 with count_timestamps := [7] } 7
      (by norm_num) (by norm_num [initState]) (by norm_num [initState])
  · exact rate_specification.2.2.2.1 (initState 0)
      [Op.sample (some (1/5)) (some (4/5)) 1] 70 rfl
      (by simp) (by simp [opTime]) (by norm_num [initState])
  · exact rate_specification.2.2.2.2 3

end SixtySevenCounter
